/-
Verification of the find-duplicate-files program.

The program scans directory trees, fingerprints every regular file with
SHA-256, groups files whose fingerprints coincide and exports the groups
(with per-file metadata) to a JSON report.  The repository holds three
modules sharing most of their code:

  * find_duplicate_files.py  -- parallel scan, read errors recovered
    (calculate_hash returns None on failure), metadata enrichment, JSON
    export;
  * find_files.py            -- serial scan, read errors NOT caught;
  * find_files_parallel.py   -- parallel scan, read errors NOT caught,
    printed output instead of JSON.

This file gives a shallow embedding of those modules: bytes are `Nat`
(values < 256), paths are `List Char`, the SHA-256 digest is implemented
in full (FIPS 180-4), the hashlib accumulator is modelled by the byte
sequence it has absorbed (hashlib documents `update a; update b` to be
equivalent to `update (a ++ b)`), file reads are modelled by a
`FileAccess` value describing how the OS answers, and the directory walk
is a recursion over a finite `DirTree`.
-/
import Mathlib

set_option maxRecDepth 10000

/-! ### SHA-256 (FIPS 180-4), executable, over byte lists -/

/-- Truncation to a 32-bit word. -/
def w32 (n : Nat) : Nat := n % 4294967296

/-- Right rotation of a 32-bit word by `k` bits. -/
def rotr (k n : Nat) : Nat := w32 ((n >>> k) ||| (n <<< (32 - k)))

/-- Bitwise complement on 32 bits. -/
def notw (n : Nat) : Nat := n ^^^ 4294967295

def shaCh (e f g : Nat) : Nat := (e &&& f) ^^^ (notw e &&& g)

def shaMaj (a b c : Nat) : Nat := (a &&& b) ^^^ (a &&& c) ^^^ (b &&& c)

def bigSigma0 (a : Nat) : Nat := rotr 2 a ^^^ rotr 13 a ^^^ rotr 22 a

def bigSigma1 (e : Nat) : Nat := rotr 6 e ^^^ rotr 11 e ^^^ rotr 25 e

def smallSigma0 (x : Nat) : Nat := rotr 7 x ^^^ rotr 18 x ^^^ (x >>> 3)

def smallSigma1 (x : Nat) : Nat := rotr 17 x ^^^ rotr 19 x ^^^ (x >>> 10)

/-- The 64 SHA-256 round constants of FIPS 180-4 (fractional parts of the
cube roots of the first 64 primes), written in decimal. -/
def shaK : List Nat :=
  [1116352408, 1899447441, 3049323471, 3921009573, 961987163,
   1508970993, 2453635748, 2870763221, 3624381080, 310598401,
   607225278, 1426881987, 1925078388, 2162078206, 2614888103,
   3248222580, 3835390401, 4022224774, 264347078, 604807628,
   770255983, 1249150122, 1555081692, 1996064986, 2554220882,
   2821834349, 2952996808, 3210313671, 3336571891, 3584528711,
   113926993, 338241895, 666307205, 773529912, 1294757372,
   1396182291, 1695183700, 1986661051, 2177026350, 2456956037,
   2730485921, 2820302411, 3259730800, 3345764771, 3516065817,
   3600352804, 4094571909, 275423344, 430227734, 506948616,
   659060556, 883997877, 958139571, 1322822218, 1537002063,
   1747873779, 1955562222, 2024104815, 2227730452, 2361852424,
   2428436474, 2756734187, 3204031479, 3329325298]

/-- The SHA-256 initial hash value of FIPS 180-4 (fractional parts of the
square roots of the first 8 primes), written in decimal. -/
def shaH0 : List Nat :=
  [1779033703, 3144134277, 1013904242, 2773480762,
   1359893119, 2600822924, 528734635, 1541459225]

/-- One extension step of the message schedule: appends `W[t]` for the next
`t` from the last 16 words. -/
def scheduleStep (ws : List Nat) : List Nat :=
  ws ++ [w32 (smallSigma1 (ws.getD (ws.length - 2) 0) + ws.getD (ws.length - 7) 0 +
              smallSigma0 (ws.getD (ws.length - 15) 0) + ws.getD (ws.length - 16) 0)]

/-- The full 64-word message schedule of one 16-word block. -/
def schedule (block : List Nat) : List Nat :=
  (List.range 48).foldl (fun ws _ => scheduleStep ws) block

/-- Working variables of the SHA-256 compression function. -/
structure ShaState where
  a : Nat
  b : Nat
  c : Nat
  d : Nat
  e : Nat
  f : Nat
  g : Nat
  h : Nat
deriving Repr, DecidableEq

def stateOfList (l : List Nat) : ShaState :=
  { a := l.getD 0 0, b := l.getD 1 0, c := l.getD 2 0, d := l.getD 3 0,
    e := l.getD 4 0, f := l.getD 5 0, g := l.getD 6 0, h := l.getD 7 0 }

def listOfState (s : ShaState) : List Nat :=
  [s.a, s.b, s.c, s.d, s.e, s.f, s.g, s.h]

/-- One round of the compression function, consuming `(K[t], W[t])`. -/
def roundStep (s : ShaState) (kw : Nat × Nat) : ShaState :=
  let t1 := w32 (s.h + bigSigma1 s.e + shaCh s.e s.f s.g + kw.1 + kw.2)
  let t2 := w32 (bigSigma0 s.a + shaMaj s.a s.b s.c)
  { a := w32 (t1 + t2), b := s.a, c := s.b, d := s.c,
    e := w32 (s.d + t1), f := s.e, g := s.f, h := s.g }

/-- Compression of one 16-word block into the running 8-word hash value. -/
def compressBlock (hs : List Nat) (block : List Nat) : List Nat :=
  let ws := schedule block
  let s := (shaK.zip ws).foldl roundStep (stateOfList hs)
  (hs.zip (listOfState s)).map (fun p => w32 (p.1 + p.2))

/-- Number of zero bytes in the SHA-256 padding of an `L`-byte message. -/
def padZeros (L : Nat) : Nat := (119 - L % 64) % 64

/-- The 8-byte big-endian encoding of the bit length of an `L`-byte message. -/
def lengthBytes (L : Nat) : List Nat :=
  [(8 * L) >>> 56 &&& 255, (8 * L) >>> 48 &&& 255, (8 * L) >>> 40 &&& 255,
   (8 * L) >>> 32 &&& 255, (8 * L) >>> 24 &&& 255, (8 * L) >>> 16 &&& 255,
   (8 * L) >>> 8 &&& 255, (8 * L) &&& 255]

/-- SHA-256 message padding: `0x80`, zeros to 56 mod 64, 8 length bytes. -/
def padMessage (msg : List Nat) : List Nat :=
  msg ++ 0x80 :: List.replicate (padZeros msg.length) 0 ++ lengthBytes msg.length

/-- Big-endian grouping of bytes into 32-bit words. -/
def bytesToWords : List Nat → List Nat
  | b0 :: b1 :: b2 :: b3 :: rest =>
      ((b0 <<< 24) ||| (b1 <<< 16) ||| (b2 <<< 8) ||| b3) :: bytesToWords rest
  | _ => []

/-- Splits a padded message (whose length is a multiple of 64) into its
64-byte blocks. -/
def toBlocks (l : List Nat) : List (List Nat) :=
  (List.range ((l.length + 63) / 64)).map (fun i => (l.drop (64 * i)).take 64)

/-- Big-endian bytes of one 32-bit word. -/
def wordBytes (w : Nat) : List Nat :=
  [(w >>> 24) &&& 255, (w >>> 16) &&& 255, (w >>> 8) &&& 255, w &&& 255]

/-- The SHA-256 digest (32 bytes) of a byte sequence. -/
def sha256 (msg : List Nat) : List Nat :=
  let blocks := (toBlocks (padMessage msg)).map bytesToWords
  (blocks.foldl compressBlock shaH0).flatMap wordBytes

/-- Lower-case hex character of a value < 16. -/
def hexChar (n : Nat) : Char :=
  if n < 10 then Char.ofNat (48 + n) else Char.ofNat (87 + n)

def byteHex (b : Nat) : List Char := [hexChar (b / 16), hexChar (b % 16)]

/-- The hex digest string, as returned by `hasher.hexdigest()`. -/
def hexDigest (bytes : List Nat) : String := String.mk (bytes.flatMap byteHex)

/-- Digest of a whole byte content in one pass.  This is the spec-side
description of `calculate_hash`: the SHA-256 hex digest of the file's full
byte content. -/
def onePassHexDigest (content : List Nat) : String := hexDigest (sha256 content)

/-! ### File access model and the fingerprinting read loop -/

/-- How the operating system answers an attempt to read a file.
`readable c` : the file opens and delivers the byte content `c`.
`unreadable e` : `open` raises an exception rendered as `e`.
`failsMidRead got e` : `open` succeeds, the first reads deliver `got`,
then a read raises `e`. -/
inductive FileAccess where
  | readable (content : List Nat)
  | unreadable (err : String)
  | failsMidRead (got : List Nat) (err : String)
deriving Repr, DecidableEq

/-- The `while buffer:` loop of `calculate_hash`: `buffer = f.read(block_size)`
then `hasher.update(buffer)` until a read comes back empty.  The hashlib
accumulator is modelled by the byte sequence it has absorbed so far
(`acc`); `rest` is the unread remainder of the file.  Every iteration with
a non-empty buffer consumes at least one byte of `rest`, so
`rest.length + 1` units of fuel always suffice (`readLoop_enough_fuel`);
the fuel argument only makes the recursion structural. -/
def readLoop (bs : Nat) : Nat → List Nat → List Nat → List Nat
  | 0, acc, _ => acc
  | fuel + 1, acc, rest =>
      if (rest.take bs).isEmpty then acc
      else readLoop bs fuel (acc ++ rest.take bs) (rest.drop bs)

/-- The bytes absorbed by the hasher once the read loop of `calculate_hash`
has run over a file of content `content` with block size `bs`. -/
def hashLoop (bs : Nat) (content : List Nat) : List Nat :=
  readLoop bs (content.length + 1) [] content

/-- The Python default `block_size=65536` of `calculate_hash`. -/
def defaultBlockSize : Nat := 65536

namespace FindDuplicateFiles

/-- `calculate_hash` of find_duplicate_files.py: streams the file through a
SHA-256 accumulator in `block_size`-byte reads; any exception — at `open`
or mid-read — is caught, logged, and turned into `None`. -/
def calculate_hash (fa : FileAccess) (block_size : Nat) : Option String :=
  match fa with
  | .readable c => some (hexDigest (sha256 (hashLoop block_size c)))
  | .unreadable _ => none
  | .failsMidRead _ _ => none

end FindDuplicateFiles

namespace FindFiles

/-- `calculate_hash` of find_files.py: the same loop, but with no
`try`/`except` — a failure at `open` or mid-read propagates as an
exception. -/
def calculate_hash (fa : FileAccess) (block_size : Nat) : Except String String :=
  match fa with
  | .readable c => .ok (hexDigest (sha256 (hashLoop block_size c)))
  | .unreadable e => .error e
  | .failsMidRead _ e => .error e

end FindFiles

namespace FindFilesParallel

/-- `calculate_hash` of find_files_parallel.py, textually identical to the
one in find_files.py: no `try`/`except`, read failures propagate. -/
def calculate_hash (fa : FileAccess) (block_size : Nat) : Except String String :=
  FindFiles.calculate_hash fa block_size

end FindFilesParallel

/-! ### Directory trees, `os.walk` and the enumeration comprehension -/

/-- A finite directory tree: the names of the regular files directly in
the directory, and its named subdirectories. -/
inductive DirTree where
  | node (files : List (List Char)) (subdirs : List (List Char × DirTree))

/-- `os.path.join`: dir + separator + name.  (The claims under proof only
use that the joined path extends the directory path, so the separator
character is irrelevant.) -/
def pathJoin (dir name : List Char) : List Char := dir ++ '/' :: name

mutual

/-- `os.walk` on the tree rooted at `dirpath`: yields
`(directory path, filenames)` for this directory and then, top-down, for
every subdirectory. -/
def walk (dirpath : List Char) : DirTree → List (List Char × List (List Char))
  | .node files subdirs => (dirpath, files) :: walkList dirpath subdirs

/-- The walks of the subdirectories of `dirpath`, concatenated in order. -/
def walkList (dirpath : List Char) :
    List (List Char × DirTree) → List (List Char × List (List Char))
  | [] => []
  | (name, sub) :: rest => walk (pathJoin dirpath name) sub ++ walkList dirpath rest

end

/-- The body of the comprehension in `find_duplicates_parallel`
(find_duplicate_files.py): walk entries whose `dirpath` contains the
marker as a substring are skipped (`if "Cache" not in dirpath`); each
filename of a kept entry is joined onto its `dirpath`. -/
def enumFromWalk (marker : List Char) :
    List (List Char × List (List Char)) → List (List Char)
  | [] => []
  | (dp, fns) :: rest =>
      (if marker <:+: dp then [] else fns.map (pathJoin dp)) ++ enumFromWalk marker rest

/-- The hard-coded exclusion substring `"Cache"`. -/
def cacheMarker : List Char := ['C', 'a', 'c', 'h', 'e']

/-- The full enumerated path sequence: every root directory walked
recursively, entries in excluded directories skipped. -/
def enumeratePaths (marker : List Char) (roots : List (List Char × DirTree)) :
    List (List Char) :=
  roots.flatMap (fun r => enumFromWalk marker (walk r.1 r.2))

/-! ### The dispatcher: one `calculate_hash` task per enumerated path -/

/-- A completed fingerprinting task: either the fingerprint of the path,
or the recorded read failure (the task returned `None` after logging the
error). -/
inductive HashResult where
  | success (fingerprint : String) (path : List Char)
  | failure (path : List Char)
deriving Repr, DecidableEq

def HashResult.path : HashResult → List Char
  | .success _ p => p
  | .failure p => p

def HashResult.isSuccess : HashResult → Bool
  | .success _ _ => true
  | .failure _ => false

/-- The completed task set of `find_duplicates_parallel`
(find_duplicate_files.py): `future_to_file` holds one submitted
`calculate_hash` future per enumerated path, and `as_completed` delivers
each future exactly once.  `fs` tells how the worker's read of each path
goes. -/
def runDispatch (fs : List Char → FileAccess) (bs : Nat)
    (paths : List (List Char)) : List HashResult :=
  paths.map (fun p =>
    match FindDuplicateFiles.calculate_hash (fs p) bs with
    | some h => .success h p
    | none => .failure p)

/-- The pairs the generator yields: `None` results are skipped with
`continue`, successes come out as `(file_hash, full_path)`. -/
def resultStream (fs : List Char → FileAccess) (bs : Nat)
    (paths : List (List Char)) : List (String × List Char) :=
  (runDispatch fs bs paths).filterMap (fun r =>
    match r with
    | .success h p => some (h, p)
    | .failure _ => none)

/-! ### Grouping: the `defaultdict(list)` fold and the export filters -/

/-- `hashes[file_hash].append(full_path)` on an insertion-ordered
dictionary rendered as an association list: append to the entry of `k`
when one exists, otherwise add a fresh entry at the end. -/
def insertResult {α β : Type} [DecidableEq α] (acc : List (α × List β)) (k : α) (v : β) :
    List (α × List β) :=
  match acc with
  | [] => [(k, [v])]
  | (k', l) :: rest =>
      if k' = k then (k', l ++ [v]) :: rest else (k', l) :: insertResult rest k v

/-- The aggregation loop
`for file_hash, full_path in find_duplicates_parallel(...): hashes[file_hash].append(full_path)`. -/
def collectAux {α β : Type} [DecidableEq α] (acc : List (α × List β)) :
    List (α × β) → List (α × List β)
  | [] => acc
  | (k, v) :: rest => collectAux (insertResult acc k v) rest

/-- The finished `hashes` dictionary, in insertion order. -/
def collectHashes {α β : Type} [DecidableEq α] (r : List (α × β)) : List (α × List β) :=
  collectAux [] r

/-- The keyed duplicate groups: entries of `hashes` with more than one
path (`if len(files) > 1`). -/
def dupGroupsKeyed {α β : Type} [DecidableEq α] (r : List (α × β)) : List (α × List β) :=
  (collectHashes r).filter (fun g => 1 < g.2.length)

/-- The `duplicates` list of `export_duplicates_to_json`: the member lists
of the groups that survive the `len(files) > 1` filter, in dict order. -/
def duplicates {α β : Type} [DecidableEq α] (r : List (α × β)) : List (List β) :=
  (dupGroupsKeyed r).map (fun g => g.2)

def groupLabel (n : Nat) : String := "Duplicate Group " ++ toString n

/-- `{f"Duplicate Group {index + 1}": files for index, files in enumerate(duplicates)}`. -/
def indexedDuplicates {α β : Type} [DecidableEq α] (r : List (α × β)) :
    List (String × List β) :=
  (duplicates r).enum.map (fun p => (groupLabel (p.1 + 1), p.2))

/-- The printing loop of `print_duplicates` (find_files_parallel.py): a
manual 1-based counter, incremented only when a group with more than one
member is printed. -/
def printLoop {β : Type} : Nat → List (List β) → List (Nat × List β)
  | _, [] => []
  | i, g :: rest =>
      if 1 < g.length then (i, g) :: printLoop (i + 1) rest else printLoop i rest

/-- The `(group number, paths)` pairs printed by `print_duplicates`. -/
def printDuplicates {α β : Type} [DecidableEq α] (r : List (α × β)) : List (Nat × List β) :=
  printLoop 1 ((collectHashes r).map (fun g => g.2))

/-- First-occurrence lookup in an association list (how a Python dict
reads), with `[]` for a missing key.  Specification device for the fold
above. -/
def lkp {α β : Type} [DecidableEq α] : List (α × List β) → α → List β
  | [], _ => []
  | (k', l) :: rest, k => if k' = k then l else lkp rest k

/-- The values the result stream carries under key `k`, in arrival
order.  Specification device for the fold above. -/
def keyPaths {α β : Type} [DecidableEq α] (r : List (α × β)) (k : α) : List β :=
  (r.filter (fun x => decide (x.1 = k))).map (fun x => x.2)

/-! ### Metadata enrichment (`get_file_metadata`) and the JSON export -/

/-- The OS metadata collaborators used by `get_file_metadata`:
`os.path.getsize`, `os.path.getmtime`/`getctime` (already rendered as the
formatted timestamp strings the code builds from them) and the
win32security owner lookup (returning `(domain, name)`).  Each lookup can
raise, rendered as `Except`. -/
structure MetaOS where
  getSize : List Char → Except String Nat
  getMTime : List Char → Except String String
  getCTime : List Char → Except String String
  getOwner : List Char → Except String (String × String)

/-- The record assembled by `get_file_metadata`.  The raw byte size
stands in for the `Length_MB` entry: the division by 1024*1024 and the
4-digit float rounding are numeric formatting of the same lookup result,
and no claim concerns the formatted value. -/
structure FileMetadata where
  length_bytes : Nat
  lastWriteTime : String
  creationTime : String
  fileOwner : String
deriving Repr, DecidableEq

/-- `get_file_metadata`: the size, modification-time and creation-time
lookups sit OUTSIDE any `try`, so their exceptions propagate to the
caller; only the owner lookup is wrapped in `try/except` and degrades to
the placeholder `"Owner Info Not Available: <reason>"`. -/
def get_file_metadata (mos : MetaOS) (p : List Char) : Except String FileMetadata := do
  let size ← mos.getSize p
  let mtime ← mos.getMTime p
  let ctime ← mos.getCTime p
  let owner :=
    match mos.getOwner p with
    | .ok dn => dn.1 ++ "\\" ++ dn.2
    | .error e => "Owner Info Not Available: " ++ e
  pure { length_bytes := size, lastWriteTime := mtime, creationTime := ctime,
         fileOwner := owner }

/-- The inner loop of `export_duplicates_to_json`: each file of a group is
paired with its metadata.  An exception escaping `get_file_metadata`
aborts the loop (and with it the whole export). -/
def enrichGroup (mos : MetaOS) (files : List (List Char)) :
    Except String (List (List Char × FileMetadata)) :=
  files.mapM (fun f => (get_file_metadata mos f).map (fun m => (f, m)))

/-- `export_duplicates_to_json` after the aggregation loop: the groups
that survive the `len(files) > 1` filter are enriched with metadata, then
labelled `Duplicate Group N` by `enumerate`.  `.ok` is a written report;
`.error` is an uncaught exception that escaped before the output file was
opened (the JSON dump is the last statement of the function). -/
def exportReport (mos : MetaOS) (r : List (String × List Char)) :
    Except String (List (String × List (List Char × FileMetadata))) := do
  let enriched ← (duplicates r).mapM (fun files => enrichGroup mos files)
  pure (enriched.enum.map (fun p => (groupLabel (p.1 + 1), p.2)))

/-! ### The three entry points and their exit behaviour -/

/-- How an invocation ends: a normal return (process status 0) or an
uncaught exception (Python prints a traceback and exits non-zero). -/
inductive ExitKind where
  | normal
  | uncaughtException (nm : String)
deriving Repr, DecidableEq

/-- The observable outcome of one `main` invocation.  `messages` records
the user-visible prints relevant to the claims (the runtime-duration
prints carry a wall-clock value outside the model and no claim mentions
them). -/
structure MainOutcome where
  scanned : Bool
  reportWritten : Bool
  messages : List String
  exit : ExitKind
deriving Repr, DecidableEq

def MainOutcome.exitCode (o : MainOutcome) : Nat :=
  match o.exit with
  | .normal => 0
  | .uncaughtException _ => 1

/-- The environment an invocation runs in: the directory tree behind each
root argument, how each file read goes, and the metadata collaborators. -/
structure World where
  dirTreeOf : String → DirTree
  fs : List Char → FileAccess
  osMeta : MetaOS

/-- The root arguments paired with their trees, as handed to `os.walk`. -/
def scanRoots (w : World) (dirs : List String) : List (List Char × DirTree) :=
  dirs.map (fun d => (d.data, w.dirTreeOf d))

/-- Enumeration without any exclusion filter: the walk comprehensions of
find_files.py and find_files_parallel.py have no `"Cache"` test. -/
def enumerateNoExclusion (roots : List (List Char × DirTree)) : List (List Char) :=
  roots.flatMap (fun r => (walk r.1 r.2).flatMap (fun e => e.2.map (pathJoin e.1)))

namespace FindDuplicateFiles

/-- `main` of find_duplicate_files.py.  With at least one directory
argument it runs `export_duplicates_to_json` (an uncaught exception there
aborts with a traceback before the report is written).  With no arguments
it prints the usage message — and then still crashes: the final
`logger.info(f"... directories {directories}: ...")` statement sits after
the `if/else` and reads `directories`, which the else-branch never bound,
raising `NameError`, so the process exits non-zero. -/
def main (w : World) (argv : List String) : MainOutcome :=
  if 1 < argv.length then
    let paths := enumeratePaths cacheMarker (scanRoots w (argv.drop 1))
    match exportReport w.osMeta (resultStream w.fs defaultBlockSize paths) with
    | .ok _ =>
        { scanned := true, reportWritten := true,
          messages := ["Duplicates exported to duplicates.json"],
          exit := .normal }
    | .error e =>
        { scanned := true, reportWritten := false, messages := [],
          exit := .uncaughtException e }
  else
    { scanned := false, reportWritten := false,
      messages := ["Please provide at least one directory as an argument."],
      exit := .uncaughtException "NameError" }

end FindDuplicateFiles

namespace FindFiles

/-- The serial generator `find_duplicates` of find_files.py: every
enumerated file is hashed in turn; `calculate_hash` has no exception
handler here, so the first read failure aborts the whole generator. -/
def find_duplicates (fs : List Char → FileAccess) (bs : Nat)
    (paths : List (List Char)) : Except String (List (String × List Char)) :=
  paths.mapM (fun p => (calculate_hash (fs p) bs).map (fun h => (h, p)))

/-- `export_duplicates_to_json` of find_files.py: the serial scan feeding
the same aggregation, filter and enrichment as the parallel module. -/
def export_duplicates_to_json (w : World) (dirs : List String) :
    Except String (List (String × List (List Char × FileMetadata))) := do
  let stream ← find_duplicates w.fs defaultBlockSize
    (enumerateNoExclusion (scanRoots w dirs))
  exportReport w.osMeta stream

/-- `main` of find_files.py.  With no directory argument it prints the
usage message, then runs the trailing runtime-duration print and returns
normally: the process exits with status 0. -/
def main (w : World) (argv : List String) : MainOutcome :=
  if 1 < argv.length then
    match export_duplicates_to_json w (argv.drop 1) with
    | .ok _ =>
        { scanned := true, reportWritten := true,
          messages := ["Duplicates exported to duplicates.json"],
          exit := .normal }
    | .error e =>
        { scanned := true, reportWritten := false, messages := [],
          exit := .uncaughtException e }
  else
    { scanned := false, reportWritten := false,
      messages := ["Please provide at least one directory as an argument."],
      exit := .normal }

end FindFiles

namespace FindFilesParallel

/-- `find_duplicates_parallel` of find_files_parallel.py: one future per
enumerated path (no exclusion filter), results collected as they
complete.  `future.result()` re-raises a worker's exception, and nothing
catches it, so one failed read aborts the generator: rendered as the
first error of the task list (which task's error surfaces first is
scheduling-dependent; that some error aborts the session is not). -/
def find_duplicates_parallel (fs : List Char → FileAccess) (bs : Nat)
    (paths : List (List Char)) : Except String (List (String × List Char)) :=
  paths.mapM (fun p => (calculate_hash (fs p) bs).map (fun h => (h, p)))

/-- `print_duplicates` of find_files_parallel.py: the aggregation fold and
the `len(files) > 1` printing loop over the completed stream. -/
def print_duplicates (fs : List Char → FileAccess) (bs : Nat)
    (paths : List (List Char)) : Except String (List (Nat × List (List Char))) :=
  (find_duplicates_parallel fs bs paths).map (fun r => printDuplicates r)

/-- `main` of find_files_parallel.py: usage message and a normal return
(exit status 0) when no directory argument is given; this module writes no
report file at all. -/
def main (w : World) (argv : List String) : MainOutcome :=
  if 1 < argv.length then
    match print_duplicates w.fs defaultBlockSize
      (enumerateNoExclusion (scanRoots w (argv.drop 1))) with
    | .ok _ =>
        { scanned := true, reportWritten := false, messages := [], exit := .normal }
    | .error e =>
        { scanned := true, reportWritten := false, messages := [],
          exit := .uncaughtException e }
  else
    { scanned := false, reportWritten := false,
      messages := ["Please provide at least one directory as an argument."],
      exit := .normal }

end FindFilesParallel

/-! ### Concrete fixtures used to exercise the model -/

/-- A trivial environment: empty trees, every file readable and empty,
every metadata lookup succeeding. -/
def trivialWorld : World :=
  { dirTreeOf := fun _ => DirTree.node [] [],
    fs := fun _ => FileAccess.readable [],
    osMeta :=
      { getSize := fun _ => Except.ok 0,
        getMTime := fun _ => Except.ok "",
        getCTime := fun _ => Except.ok "",
        getOwner := fun _ => Except.ok ("", "") } }

/-- A file system where the single file `b` cannot be opened and every
other file holds the byte `1`. -/
def fsOneUnreadable : List Char → FileAccess :=
  fun p => if p = ['b'] then FileAccess.unreadable "Permission denied"
           else FileAccess.readable [1]

/-- Metadata collaborators whose modification-time lookup raises while
everything else succeeds. -/
def failingTimestampOS : MetaOS :=
  { getSize := fun _ => Except.ok 5,
    getMTime := fun _ => Except.error "stat failed",
    getCTime := fun _ => Except.ok "2024-01-01 00:00",
    getOwner := fun _ => Except.ok ("DOM", "USER") }

/-- Metadata collaborators whose owner lookup raises while everything
else succeeds. -/
def ownerFailOS : MetaOS :=
  { getSize := fun _ => Except.ok 7,
    getMTime := fun _ => Except.ok "2024-01-01 00:00",
    getCTime := fun _ => Except.ok "2024-01-02 00:00",
    getOwner := fun _ => Except.error "SID lookup failed" }

/-! ### Lemmas about the aggregation fold -/

/-- With a positive block size and enough fuel the read loop absorbs
exactly `acc ++ rest`: the chunked reads reconstruct the remaining
content. -/
theorem readLoop_enough_fuel (bs : Nat) (hbs : 1 ≤ bs) :
    ∀ (fuel : Nat) (acc rest : List Nat), rest.length < fuel →
      readLoop bs fuel acc rest = acc ++ rest := by
  intro fuel
  induction fuel with
  | zero => intro acc rest h; omega
  | succ n ih =>
      intro acc rest h
      simp only [readLoop]
      by_cases hb : (rest.take bs).isEmpty
      · have : rest.take bs = [] := by simpa [List.isEmpty_iff] using hb
        rcases List.take_eq_nil_iff.mp this with h1 | h1
        · omega
        · simp [hb, h1]
      · have hne : rest ≠ [] := by
          intro hr
          simp [hr] at hb
        have hlen : (rest.drop bs).length < n := by
          have : 0 < rest.length := List.length_pos.mpr hne
          simp only [List.length_drop]
          omega
        simp only [hb, if_false]
        rw [ih (acc ++ rest.take bs) (rest.drop bs) hlen, List.append_assoc,
          List.take_append_drop]
        simp

/-- The accumulated bytes are the whole content whenever `1 ≤ bs`. -/
theorem hashLoop_eq_content (bs : Nat) (hbs : 1 ≤ bs) (content : List Nat) :
    hashLoop bs content = content := by
  simpa using readLoop_enough_fuel bs hbs (content.length + 1) [] content (by omega)

section GroupingLemmas

variable {α β : Type} [DecidableEq α]

theorem keyPaths_nil (k : α) : keyPaths ([] : List (α × β)) k = [] := rfl

theorem keyPaths_cons (k₀ : α) (v : β) (rest : List (α × β)) (k : α) :
    keyPaths ((k₀, v) :: rest) k =
      if k₀ = k then v :: keyPaths rest k else keyPaths rest k := by
  by_cases h : k₀ = k <;> simp [keyPaths, List.filter_cons, h]

theorem lkp_insertResult (acc : List (α × List β)) (h : α) (v : β) (k : α) :
    lkp (insertResult acc h v) k =
      if h = k then lkp acc k ++ [v] else lkp acc k := by
  induction acc with
  | nil => by_cases hk : h = k <;> simp [insertResult, lkp, hk]
  | cons hd tl ih =>
      obtain ⟨k', l⟩ := hd
      by_cases h1 : k' = h
      · subst h1
        by_cases h2 : k' = k <;> simp [insertResult, lkp, h2]
      · by_cases h2 : k' = k
        · subst h2
          have : ¬ h = k' := fun hh => h1 hh.symm
          simp [insertResult, lkp, h1, this]
        · simp [insertResult, lkp, h1, h2, ih]

theorem lkp_collectAux (r : List (α × β)) :
    ∀ (acc : List (α × List β)) (k : α),
      lkp (collectAux acc r) k = lkp acc k ++ keyPaths r k := by
  induction r with
  | nil => intro acc k; simp [collectAux, keyPaths]
  | cons hd rest ih =>
      intro acc k
      obtain ⟨h, v⟩ := hd
      rw [show collectAux acc ((h, v) :: rest) = collectAux (insertResult acc h v) rest
            from rfl,
        ih (insertResult acc h v) k, lkp_insertResult, keyPaths_cons]
      by_cases hk : h = k <;> simp [hk]

/-- The finished dictionary reads back exactly the stream's values for
each key, in arrival order. -/
theorem lkp_collectHashes (r : List (α × β)) (k : α) :
    lkp (collectHashes r) k = keyPaths r k := by
  simpa [lkp] using lkp_collectAux r [] k

theorem mem_keys_insertResult (acc : List (α × List β)) (h : α) (v : β) (k : α) :
    k ∈ (insertResult acc h v).map (fun g => g.1) ↔
      k ∈ acc.map (fun g => g.1) ∨ k = h := by
  induction acc with
  | nil => simp [insertResult]
  | cons hd tl ih =>
      obtain ⟨k', l⟩ := hd
      by_cases h1 : k' = h
      · subst h1
        by_cases h2 : k = k' <;> simp [insertResult, h2]
      · simp only [insertResult, if_neg h1, List.map_cons, List.mem_cons, ih]
        tauto

theorem nodupKeys_insertResult (acc : List (α × List β)) (h : α) (v : β)
    (hn : (acc.map (fun g => g.1)).Nodup) :
    ((insertResult acc h v).map (fun g => g.1)).Nodup := by
  induction acc with
  | nil => simp [insertResult]
  | cons hd tl ih =>
      obtain ⟨k', l⟩ := hd
      simp only [List.map_cons, List.nodup_cons] at hn
      by_cases h1 : k' = h
      · subst h1
        simpa [insertResult, List.nodup_cons] using hn
      · simp only [insertResult, if_neg h1, List.map_cons, List.nodup_cons,
          mem_keys_insertResult]
        refine ⟨?_, ih hn.2⟩
        intro hc
        rcases hc with hc | hc
        · exact hn.1 hc
        · exact h1 hc

theorem nodupKeys_collectAux (r : List (α × β)) :
    ∀ (acc : List (α × List β)), (acc.map (fun g => g.1)).Nodup →
      ((collectAux acc r).map (fun g => g.1)).Nodup := by
  induction r with
  | nil => intro acc hn; simpa [collectAux] using hn
  | cons hd rest ih =>
      intro acc hn
      obtain ⟨h, v⟩ := hd
      exact ih (insertResult acc h v) (nodupKeys_insertResult acc h v hn)

theorem nodupKeys_collectHashes (r : List (α × β)) :
    ((collectHashes r).map (fun g => g.1)).Nodup :=
  nodupKeys_collectAux r [] (by simp)

theorem lkp_of_mem (acc : List (α × List β)) (k : α) (l : List β)
    (hn : (acc.map (fun g => g.1)).Nodup) (hm : (k, l) ∈ acc) :
    lkp acc k = l := by
  induction acc with
  | nil => simp at hm
  | cons hd tl ih =>
      obtain ⟨k', l'⟩ := hd
      simp only [List.map_cons, List.nodup_cons] at hn
      rcases List.mem_cons.mp hm with hm1 | hm1
      · obtain ⟨hk, hl⟩ := Prod.mk.injEq .. ▸ hm1
        injection hm1 with hk hl
        subst hk hl
        simp [lkp]
      · have hk : k' ≠ k := by
          intro he
          subst he
          exact hn.1 (List.mem_map.mpr ⟨(k', l), hm1, rfl⟩)
        simp only [lkp, if_neg hk]
        exact ih hn.2 hm1

theorem mem_of_lkp (acc : List (α × List β)) (k : α)
    (hne : lkp acc k ≠ []) : (k, lkp acc k) ∈ acc := by
  induction acc with
  | nil => simp [lkp] at hne
  | cons hd tl ih =>
      obtain ⟨k', l'⟩ := hd
      by_cases hk : k' = k
      · subst hk
        simp [lkp]
      · simp only [lkp, if_neg hk] at hne ⊢
        exact List.mem_cons_of_mem _ (ih hne)

/-- Every value list stored by the fold is non-empty. -/
theorem mem_insertResult_nonempty (acc : List (α × List β)) (h : α) (v : β) :
    (∀ g ∈ acc, g.2 ≠ []) → ∀ g ∈ insertResult acc h v, g.2 ≠ [] := by
  induction acc with
  | nil =>
      intro _ g hg
      simp only [insertResult, List.mem_singleton] at hg
      subst hg
      simp
  | cons hd tl ih =>
      obtain ⟨k', l⟩ := hd
      intro hv g hg
      by_cases h1 : k' = h
      · subst h1
        simp only [insertResult, if_true, eq_self_iff_true, List.mem_cons] at hg
        rcases hg with hg | hg
        · subst hg; simp
        · exact hv g (List.mem_cons_of_mem _ hg)
      · simp only [insertResult, if_neg h1, List.mem_cons] at hg
        rcases hg with hg | hg
        · subst hg
          exact hv (k', l) (List.mem_cons_self _ _)
        · exact ih (fun g' hg' => hv g' (List.mem_cons_of_mem _ hg')) g hg

theorem mem_collectAux_nonempty (r : List (α × β)) :
    ∀ (acc : List (α × List β)), (∀ g ∈ acc, g.2 ≠ []) →
      ∀ g ∈ collectAux acc r, g.2 ≠ [] := by
  induction r with
  | nil => intro acc hv; simpa [collectAux] using hv
  | cons hd rest ih =>
      intro acc hv
      obtain ⟨h, v⟩ := hd
      exact ih (insertResult acc h v) (mem_insertResult_nonempty acc h v hv)

/-- Characterization of the finished dictionary: its entries are exactly
the keys of the stream, each carrying the stream's values for that key in
arrival order. -/
theorem mem_collectHashes_iff (r : List (α × β)) (k : α) (l : List β) :
    (k, l) ∈ collectHashes r ↔ l = keyPaths r k ∧ l ≠ [] := by
  constructor
  · intro hm
    have he : lkp (collectHashes r) k = l :=
      lkp_of_mem _ _ _ (nodupKeys_collectHashes r) hm
    have hne : l ≠ [] :=
      mem_collectAux_nonempty r [] (by simp) (k, l) hm
    exact ⟨by rw [← he, lkp_collectHashes], hne⟩
  · rintro ⟨hl, hne⟩
    have he : lkp (collectHashes r) k = l := by rw [lkp_collectHashes, hl]
    have := mem_of_lkp (collectHashes r) k (by rw [he]; exact hne)
    rwa [he] at this

/-- Every value stored under key `k` came from a stream pair `(k, x)`. -/
theorem mem_keyPaths_mem_stream (r : List (α × β)) (k : α) (x : β)
    (hx : x ∈ keyPaths r k) : (k, x) ∈ r := by
  simp only [keyPaths, List.mem_map, List.mem_filter, decide_eq_true_eq] at hx
  obtain ⟨⟨k', x'⟩, ⟨hmem, hk⟩, hx'⟩ := hx
  simp only at hk hx'
  subst hk hx'
  exact hmem

end GroupingLemmas

/-! ### Lemmas about the walk and the exclusion filter -/

theorem enumFromWalk_append (marker : List Char)
    (a b : List (List Char × List (List Char))) :
    enumFromWalk marker (a ++ b) = enumFromWalk marker a ++ enumFromWalk marker b := by
  induction a with
  | nil => simp [enumFromWalk]
  | cons hd tl ih =>
      obtain ⟨dp, fns⟩ := hd
      simp [enumFromWalk, ih, List.append_assoc]

mutual

/-- A subtree rooted at a directory whose path contains the marker
contributes no enumerated path: every walk entry below it extends that
path, hence still contains the marker, and the comprehension's
`if "Cache" not in dirpath` skips it. -/
theorem enumFromWalk_walk_nil (marker : List Char) (t : DirTree) (dirpath : List Char)
    (h : marker <:+: dirpath) : enumFromWalk marker (walk dirpath t) = [] :=
  match t with
  | .node files subdirs => by
      rw [walk, enumFromWalk, if_pos h, enumFromWalk_walkList_nil marker subdirs dirpath h]
      simp

theorem enumFromWalk_walkList_nil (marker : List Char) (l : List (List Char × DirTree))
    (dirpath : List Char) (h : marker <:+: dirpath) :
    enumFromWalk marker (walkList dirpath l) = [] :=
  match l with
  | [] => by rw [walkList]; rfl
  | (name, sub) :: rest => by
      have h1 : marker <:+: pathJoin dirpath name :=
        h.trans ((List.prefix_append dirpath ('/' :: name)).isInfix)
      rw [walkList, enumFromWalk_append,
        enumFromWalk_walk_nil marker sub (pathJoin dirpath name) h1,
        enumFromWalk_walkList_nil marker rest dirpath h]
      rfl

end

/-! ### Lemmas about the dispatcher and the yielded stream -/

theorem runDispatch_map_path (fs : List Char → FileAccess) (bs : Nat)
    (paths : List (List Char)) :
    (runDispatch fs bs paths).map HashResult.path = paths := by
  induction paths with
  | nil => rfl
  | cons p rest ih =>
      simp only [runDispatch, List.map_cons] at ih ⊢
      cases FindDuplicateFiles.calculate_hash (fs p) bs <;>
        simp [HashResult.path, ih]

theorem length_filter_path_eq_count (l : List HashResult) (p : List Char) :
    (l.filter (fun r => decide (r.path = p))).length = (l.map HashResult.path).count p := by
  induction l with
  | nil => rfl
  | cons hd tl ih =>
      by_cases h : hd.path = p <;>
        simp [List.filter_cons, List.count_cons, h, ih, Nat.add_comm]

theorem length_filter_isSuccess_add (l : List HashResult) :
    (l.filter (fun r => r.isSuccess)).length +
      (l.filter (fun r => !r.isSuccess)).length = l.length := by
  induction l with
  | nil => rfl
  | cons hd tl ih =>
      cases hhd : hd.isSuccess <;> simp [List.filter_cons, hhd, ih] <;> omega

theorem resultStream_eq_filterMap (fs : List Char → FileAccess) (bs : Nat)
    (paths : List (List Char)) :
    resultStream fs bs paths =
      paths.filterMap
        (fun p => (FindDuplicateFiles.calculate_hash (fs p) bs).map (fun h => (h, p))) := by
  induction paths with
  | nil => rfl
  | cons p rest ih =>
      simp only [resultStream, runDispatch, List.map_cons, List.filterMap_cons] at ih ⊢
      cases FindDuplicateFiles.calculate_hash (fs p) bs <;> simp [ih]

/-- Dropping a path whose hash attempt fails does not change the yielded
stream: the generator already skipped it with `continue`. -/
theorem resultStream_filter_failed (fs : List Char → FileAccess) (bs : Nat)
    (paths : List (List Char)) (p : List Char)
    (hfail : FindDuplicateFiles.calculate_hash (fs p) bs = none) :
    resultStream fs bs (paths.filter (fun q => decide (q ≠ p))) =
      resultStream fs bs paths := by
  rw [resultStream_eq_filterMap, resultStream_eq_filterMap]
  induction paths with
  | nil => rfl
  | cons q rest ih =>
      simp only [decide_not] at ih
      by_cases hq : q = p
      · subst hq
        simp [List.filter_cons, List.filterMap_cons, hfail, ih, decide_not]
      · rw [List.filter_cons, if_pos (by simp [hq]), List.filterMap_cons,
          List.filterMap_cons]
        cases FindDuplicateFiles.calculate_hash (fs q) bs <;> simp [ih, decide_not]

/-- A path whose hash attempt fails is yielded under no fingerprint. -/
theorem failed_path_not_in_stream (fs : List Char → FileAccess) (bs : Nat)
    (paths : List (List Char)) (p : List Char)
    (hfail : FindDuplicateFiles.calculate_hash (fs p) bs = none) (k : String) :
    (k, p) ∉ resultStream fs bs paths := by
  rw [resultStream_eq_filterMap]
  intro hmem
  obtain ⟨q, _, hq⟩ := List.mem_filterMap.mp hmem
  cases hc : FindDuplicateFiles.calculate_hash (fs q) bs with
  | none => rw [hc] at hq; exact Option.noConfusion hq
  | some h =>
      rw [hc] at hq
      have hpair : (h, q) = (k, p) := by simpa using hq
      have hq2 : q = p := congrArg Prod.snd hpair
      subst hq2
      rw [hc] at hfail
      exact Option.noConfusion hfail

/-- A value that the stream never carries is in no duplicate group. -/
theorem not_mem_duplicates_of_not_in_stream {α β : Type} [DecidableEq α]
    (r : List (α × β)) (p : β) (hp : ∀ k, (k, p) ∉ r) :
    ∀ g ∈ duplicates r, p ∉ g := by
  intro g hg hpg
  simp only [duplicates, dupGroupsKeyed, List.mem_map, List.mem_filter] at hg
  obtain ⟨⟨k, l⟩, ⟨hmem, -⟩, hgl⟩ := hg
  subst hgl
  have := (mem_collectHashes_iff r k l).mp hmem
  exact hp k (mem_keyPaths_mem_stream r k p (this.1 ▸ hpg))

/-! ### Permutation insensitivity of the aggregation -/

theorem keyPaths_perm {α β : Type} [DecidableEq α] (r₁ r₂ : List (α × β))
    (h : r₁.Perm r₂) (k : α) : (keyPaths r₁ k).Perm (keyPaths r₂ k) :=
  (h.filter _).map _

/-! ### Lemmas about the filtered groups and the export -/

theorem mem_duplicates_two_le {α β : Type} [DecidableEq α] (r : List (α × β))
    (g : List β) (hg : g ∈ duplicates r) : 2 ≤ g.length := by
  simp only [duplicates, dupGroupsKeyed, List.mem_map, List.mem_filter,
    decide_eq_true_eq] at hg
  obtain ⟨⟨k, l⟩, ⟨-, hlen⟩, hgl⟩ := hg
  subst hgl
  omega

theorem mem_indexedDuplicates_mem_duplicates {α β : Type} [DecidableEq α]
    (r : List (α × β)) (lbl : String) (g : List β)
    (h : (lbl, g) ∈ indexedDuplicates r) : g ∈ duplicates r := by
  simp only [indexedDuplicates, List.mem_map] at h
  obtain ⟨⟨i, g'⟩, hmem, heq⟩ := h
  have hg : g' = g := congrArg Prod.snd heq
  subst hg
  exact List.getElem?_mem (List.mem_enum_iff_getElem?.mp hmem)

theorem mem_printLoop_two_le {β : Type} :
    ∀ (gs : List (List β)) (i j : Nat) (g : List β),
      (j, g) ∈ printLoop i gs → 2 ≤ g.length := by
  intro gs
  induction gs with
  | nil => intro i j g h; simp [printLoop] at h
  | cons hd tl ih =>
      intro i j g h
      by_cases h1 : 1 < hd.length
      · rw [printLoop, if_pos h1] at h
        rcases List.mem_cons.mp h with h2 | h2
        · have hg : g = hd := congrArg Prod.snd h2
          subst hg
          omega
        · exact ih _ _ _ h2
      · rw [printLoop, if_neg h1] at h
        exact ih _ _ _ h

theorem mapM_ok_forall2 {α β : Type} (f : α → Except String β) :
    ∀ (l : List α) (l' : List β), l.mapM f = Except.ok l' →
      List.Forall₂ (fun a b => f a = Except.ok b) l l' := by
  intro l
  induction l with
  | nil =>
      intro l' h
      simp only [List.mapM_nil, pure] at h
      cases h
      exact List.Forall₂.nil
  | cons a rest ih =>
      intro l' h
      rw [List.mapM_cons] at h
      cases ha : f a with
      | error e => rw [ha] at h; cases h
      | ok b =>
          rw [ha] at h
          cases hr : rest.mapM f with
          | error e =>
              rw [hr] at h
              cases h
          | ok bs =>
              rw [hr] at h
              simp only [bind, Except.bind, pure, Except.pure] at h
              cases h
              exact List.Forall₂.cons ha (ih bs hr)

theorem forall2_mem_right {α β : Type} {R : α → β → Prop} :
    ∀ {l : List α} {l' : List β}, List.Forall₂ R l l' →
      ∀ b ∈ l', ∃ a ∈ l, R a b := by
  intro l l' h
  induction h with
  | nil => intro b hb; simp at hb
  | cons hab _ ih =>
      intro b hb
      rcases List.mem_cons.mp hb with hb | hb
      · subst hb
        exact ⟨_, List.mem_cons_self _ _, hab⟩
      · obtain ⟨a, ha, hr⟩ := ih b hb
        exact ⟨a, List.mem_cons_of_mem _ ha, hr⟩

/-- A group whose members can all be enriched is enriched whole: the
enrichment succeeds and keeps every path, in order. -/
theorem enrichGroup_ok (mos : MetaOS) :
    ∀ (g : List (List Char)),
      (∀ f ∈ g, ∃ m, get_file_metadata mos f = Except.ok m) →
      ∃ l, enrichGroup mos g = Except.ok l ∧ l.map (fun x => x.1) = g := by
  intro g
  induction g with
  | nil => intro _; exact ⟨[], rfl, rfl⟩
  | cons f rest ih =>
      intro hall
      obtain ⟨m, hm⟩ := hall f (List.mem_cons_self _ _)
      obtain ⟨l, hl, hmap⟩ := ih (fun f' hf' => hall f' (List.mem_cons_of_mem _ hf'))
      refine ⟨(f, m) :: l, ?_, by simp [hmap]⟩
      simp only [enrichGroup] at hl ⊢
      rw [List.mapM_cons, hm, hl]
      rfl

/-! ### The claims -/

/-- C1: Every duplicate group emitted in the output has at least 2 member
paths: a fingerprint whose collected path list has fewer than 2 entries
yields no keyed group, every group in the JSON export (both the labelled
path groups and the metadata-enriched report) lists 2 or more paths, and
so does every group in the printed output. -/
theorem c1_duplicate_groups_have_at_least_two_members
    (r : List (String × List Char)) :
    (∀ lbl g, (lbl, g) ∈ indexedDuplicates r → 2 ≤ g.length)
    ∧ (∀ i g, (i, g) ∈ printDuplicates r → 2 ≤ g.length)
    ∧ (∀ k l, (k, l) ∈ collectHashes r → l.length < 2 → (k, l) ∉ dupGroupsKeyed r)
    ∧ (∀ (mos : MetaOS) rep, exportReport mos r = Except.ok rep →
        ∀ lbl g, (lbl, g) ∈ rep → 2 ≤ g.length) := by
  refine ⟨?_, ?_, ?_, ?_⟩
  · intro lbl g h
    exact mem_duplicates_two_le r g (mem_indexedDuplicates_mem_duplicates r lbl g h)
  · intro i g h
    exact mem_printLoop_two_le _ 1 i g h
  · intro k l hmem hlen hdup
    simp only [dupGroupsKeyed, List.mem_filter, decide_eq_true_eq] at hdup
    omega
  · intro mos rep hrep lbl g hg
    simp only [exportReport, bind, Except.bind] at hrep
    cases hmm : (duplicates r).mapM (fun files => enrichGroup mos files) with
    | error e => rw [hmm] at hrep; cases hrep
    | ok enriched =>
        rw [hmm] at hrep
        simp only [pure, Except.pure, Except.ok.injEq] at hrep
        subst hrep
        simp only [List.mem_map] at hg
        obtain ⟨⟨i, g'⟩, hmem, heq⟩ := hg
        have hgg : g' = g := congrArg Prod.snd heq
        subst hgg
        have hge : g' ∈ enriched :=
          List.getElem?_mem (List.mem_enum_iff_getElem?.mp hmem)
        obtain ⟨files, hfiles, hok⟩ :=
          forall2_mem_right (mapM_ok_forall2 _ _ _ hmm) g' hge
        simp only [enrichGroup] at hok
        have hlen : files.length = g'.length :=
          (mapM_ok_forall2 _ files g' hok).length_eq
        have h2 : 2 ≤ files.length := mem_duplicates_two_le r files hfiles
        omega

/-- Witness for C1 at a concrete two-element stream: the one exported
group has exactly 2 members. -/
theorem c1_witness :
    ("Duplicate Group 1", [['a'], ['b']])
        ∈ indexedDuplicates ([("h", ['a']), ("h", ['b'])] : List (String × List Char))
    ∧ 2 ≤ ([['a'], ['b']] : List (List Char)).length :=
  ⟨by decide,
    (c1_duplicate_groups_have_at_least_two_members [("h", ['a']), ("h", ['b'])]).1
      "Duplicate Group 1" [['a'], ['b']] (by decide)⟩

/-- C2: The fingerprint is a deterministic function of the file's byte
content only: two reads that deliver the same bytes produce the same
fingerprint whatever the path or the block size, hashing the same
unchanged file twice returns the same fingerprint, and contents that
differ produce differing fingerprints (witnessed here on the spec's own
"hello" / "world" contents; beyond that the claim itself only asserts it
up to SHA-256 collision probability). -/
theorem c2_fingerprint_is_function_of_content_only :
    (∀ (fs₁ fs₂ : List Char → FileAccess) (p q : List Char) (bs : Nat),
        fs₁ p = fs₂ q →
        FindDuplicateFiles.calculate_hash (fs₁ p) bs
          = FindDuplicateFiles.calculate_hash (fs₂ q) bs)
    ∧ (∀ (c : List Nat) (bs₁ bs₂ : Nat), 1 ≤ bs₁ → 1 ≤ bs₂ →
        FindDuplicateFiles.calculate_hash (.readable c) bs₁
          = FindDuplicateFiles.calculate_hash (.readable c) bs₂)
    ∧ FindDuplicateFiles.calculate_hash
          (.readable [104, 101, 108, 108, 111]) defaultBlockSize
        ≠ FindDuplicateFiles.calculate_hash
          (.readable [119, 111, 114, 108, 100]) defaultBlockSize := by
  have hd : (1 : Nat) ≤ defaultBlockSize := by decide
  refine ⟨?_, ?_, ?_⟩
  · intro fs₁ fs₂ p q bs h
    rw [h]
  · intro c bs₁ bs₂ h1 h2
    simp [FindDuplicateFiles.calculate_hash, hashLoop_eq_content bs₁ h1,
      hashLoop_eq_content bs₂ h2]
  · simp only [FindDuplicateFiles.calculate_hash,
      hashLoop_eq_content defaultBlockSize hd]
    decide

/-- Witness for C2: hashing the same one-byte content with block sizes 1
and 3 gives the same fingerprint. -/
theorem c2_witness :
    ((1 : Nat) ≤ 1 ∧ (1 : Nat) ≤ 3)
    ∧ FindDuplicateFiles.calculate_hash (.readable [7]) 1
        = FindDuplicateFiles.calculate_hash (.readable [7]) 3 :=
  ⟨⟨by decide, by decide⟩,
    c2_fingerprint_is_function_of_content_only.2.1 [7] 1 3 (by decide) (by decide)⟩

/-- C3: Every enumerated path (every filename yielded by the recursive
walk over all roots, after exclusion) produces exactly one `HashResult`:
the dispatcher's result list has one entry per enumerated path, successes
plus failures count up to the number of enumerated paths, and each path
appears among the results exactly as often as it was enumerated — none is
hashed twice, none skipped. -/
theorem c3_exactly_one_hash_result_per_enumerated_path
    (fs : List Char → FileAccess) (bs : Nat) (marker : List Char)
    (roots : List (List Char × DirTree)) :
    (runDispatch fs bs (enumeratePaths marker roots)).map HashResult.path
        = enumeratePaths marker roots
    ∧ ((runDispatch fs bs (enumeratePaths marker roots)).filter
          (fun r => r.isSuccess)).length
        + ((runDispatch fs bs (enumeratePaths marker roots)).filter
          (fun r => !r.isSuccess)).length
        = (enumeratePaths marker roots).length
    ∧ ∀ p, ((runDispatch fs bs (enumeratePaths marker roots)).filter
          (fun r => decide (r.path = p))).length
        = (enumeratePaths marker roots).count p := by
  refine ⟨runDispatch_map_path fs bs _, ?_, ?_⟩
  · rw [length_filter_isSuccess_add]
    simp [runDispatch]
  · intro p
    rw [length_filter_path_eq_count, runDispatch_map_path]

/-- C10: For every byte content and every block size ≥ 1 the
block-streaming loop of `calculate_hash` computes exactly the SHA-256 hex
digest of the whole content in one pass, independently of the block size,
in both the recovering module and the raising modules; empty content
yields the digest of empty input. -/
theorem c10_chunked_hashing_equals_one_pass :
    ∀ (c : List Nat) (bs : Nat), 1 ≤ bs →
      FindDuplicateFiles.calculate_hash (.readable c) bs = some (onePassHexDigest c)
      ∧ FindFiles.calculate_hash (.readable c) bs = Except.ok (onePassHexDigest c)
      ∧ FindDuplicateFiles.calculate_hash (.readable []) bs
          = some "e3b0c44298fc1c149afbf4c8996fb92427ae41e4649b934ca495991b7852b855" := by
  intro c bs hbs
  refine ⟨?_, ?_, ?_⟩
  · simp [FindDuplicateFiles.calculate_hash, onePassHexDigest,
      hashLoop_eq_content bs hbs]
  · simp [FindFiles.calculate_hash, onePassHexDigest, hashLoop_eq_content bs hbs]
  · simp only [FindDuplicateFiles.calculate_hash, hashLoop_eq_content bs hbs]
    decide

/-- Witness for C10: a two-byte content hashed with block size 1 equals
the one-pass digest. -/
theorem c10_witness :
    (1 : Nat) ≤ 1
    ∧ FindDuplicateFiles.calculate_hash (.readable [0, 1]) 1
        = some (onePassHexDigest [0, 1]) :=
  ⟨by decide, (c10_chunked_hashing_equals_one_pass [0, 1] 1 (by decide)).1⟩

/-- C6: A directory whose path contains the exclusion substring (the
default marker is `"Cache"`) contributes zero enumerated paths for its
whole subtree: every walk entry below it extends the matching path, so
the comprehension's filter drops it. -/
theorem c6_excluded_subtrees_contribute_zero_paths :
    (∀ (marker dirpath : List Char) (t : DirTree), marker <:+: dirpath →
        enumFromWalk marker (walk dirpath t) = [])
    ∧ ∀ (dirpath : List Char) (t : DirTree), cacheMarker <:+: dirpath →
        enumFromWalk cacheMarker (walk dirpath t) = [] := by
  refine ⟨?_, ?_⟩
  · intro marker dirpath t h
    exact enumFromWalk_walk_nil marker t dirpath h
  · intro dirpath t h
    exact enumFromWalk_walk_nil cacheMarker t dirpath h

/-- Witness for C6: a two-level tree under a directory named
`/Cache` enumerates nothing. -/
theorem c6_witness :
    cacheMarker <:+: ('/' :: cacheMarker)
    ∧ enumFromWalk cacheMarker
        (walk ('/' :: cacheMarker)
          (DirTree.node [['f']] [(['s'], DirTree.node [['g']] [])])) = [] :=
  ⟨by decide,
    c6_excluded_subtrees_contribute_zero_paths.1 cacheMarker ('/' :: cacheMarker)
      (DirTree.node [['f']] [(['s'], DirTree.node [['g']] [])]) (by decide)⟩

/-- C4 fails as stated on the cited find_files_parallel.py code: there
`calculate_hash` has no exception handler, `future.result()` re-raises,
and one unreadable file aborts the whole session instead of being
recorded as a failure — the readable siblings `a` and `c` (equal
contents, a duplicate pair when `b` is absent) are not grouped at all. -/
theorem c4_counterexample :
    FindFilesParallel.print_duplicates fsOneUnreadable defaultBlockSize
        [['b'], ['a'], ['c']] = Except.error "Permission denied"
    ∧ FindFilesParallel.print_duplicates fsOneUnreadable defaultBlockSize
        [['a'], ['c']] = Except.ok [(1, [['a'], ['c']])] := by
  exact ⟨rfl, rfl⟩

/-- C4 (amended): In find_duplicate_files.py the claim holds — a failed
read is recorded as `None`, skipped by the generator, excluded from every
duplicate group, and the remaining files are hashed and grouped exactly
as if the failing file were absent, the session continuing; in
find_files.py and find_files_parallel.py the unhandled read exception
aborts the session (see the counterexample). -/
theorem c4_read_failure_isolated_in_main_module
    (fs : List Char → FileAccess) (bs : Nat) (paths : List (List Char))
    (p : List Char)
    (hfail : FindDuplicateFiles.calculate_hash (fs p) bs = none) :
    resultStream fs bs paths
        = resultStream fs bs (paths.filter (fun q => decide (q ≠ p)))
    ∧ indexedDuplicates (resultStream fs bs paths)
        = indexedDuplicates
            (resultStream fs bs (paths.filter (fun q => decide (q ≠ p))))
    ∧ ∀ g ∈ duplicates (resultStream fs bs paths), p ∉ g := by
  have h1 := resultStream_filter_failed fs bs paths p hfail
  refine ⟨h1.symm, by rw [h1], ?_⟩
  exact not_mem_duplicates_of_not_in_stream _ p
    (fun k => failed_path_not_in_stream fs bs paths p hfail k)

/-- Witness for C4: with `b` unreadable, the stream over `[b, a]` equals
the stream with `b` dropped from the enumeration. -/
theorem c4_witness :
    FindDuplicateFiles.calculate_hash (fsOneUnreadable ['b']) defaultBlockSize = none
    ∧ resultStream fsOneUnreadable defaultBlockSize [['b'], ['a']]
        = resultStream fsOneUnreadable defaultBlockSize
            ([['b'], ['a']].filter (fun q => decide (q ≠ ['b']))) :=
  ⟨rfl,
    (c4_read_failure_isolated_in_main_module fsOneUnreadable defaultBlockSize
      [['b'], ['a']] ['b'] rfl).1⟩

/-- C5 fails as stated: group labelling follows the insertion order of the
`defaultdict`, i.e. the order in which `as_completed` first delivers each
fingerprint, and that order is not deterministic across runs.  Two
completion orders of the same result set — a permutation — swap which
group is `Duplicate Group 1`. -/
theorem c5_counterexample :
    ([("h1", ['a']), ("h2", ['c']), ("h1", ['b']), ("h2", ['d'])]
        : List (String × List Char)).Perm
      [("h2", ['c']), ("h1", ['a']), ("h1", ['b']), ("h2", ['d'])]
    ∧ indexedDuplicates
        ([("h1", ['a']), ("h2", ['c']), ("h1", ['b']), ("h2", ['d'])]
          : List (String × List Char))
      ≠ indexedDuplicates
        ([("h2", ['c']), ("h1", ['a']), ("h1", ['b']), ("h2", ['d'])]
          : List (String × List Char)) := by
  exact ⟨by decide, by decide⟩

/-- C5 (amended): After the stream is exhausted the groups with ≥2
members are assigned the consecutive 1-based labels `Duplicate Group 1`,
`Duplicate Group 2`, … in first-completion order of their fingerprints,
and the CONTENT of the groups (each fingerprint's member multiset) is
insensitive to completion order; but the label assignment itself depends
on the completion order, so two runs over the same tree need not order
groups identically (see the counterexample). -/
theorem c5_labels_consecutive_content_order_insensitive :
    (∀ (r : List (String × List Char)),
        (indexedDuplicates r).map (fun g => g.1)
          = (List.range (duplicates r).length).map (fun i => groupLabel (i + 1)))
    ∧ ∀ (r₁ r₂ : List (String × List Char)), r₁.Perm r₂ →
        ∀ (k : String) (l₁ : List (List Char)),
          (k, l₁) ∈ collectHashes r₁ → 2 ≤ l₁.length →
          ∃ l₂, (k, l₂) ∈ collectHashes r₂ ∧ l₁.Perm l₂ ∧ 2 ≤ l₂.length := by
  constructor
  · intro r
    simp only [indexedDuplicates, List.map_map]
    have hco : ((fun g : String × List (List Char) => g.1)
          ∘ fun p : Nat × List (List Char) => (groupLabel (p.1 + 1), p.2))
        = (fun i => groupLabel (i + 1)) ∘ Prod.fst := rfl
    rw [hco, ← List.map_map, List.enum_map_fst]
  · intro r₁ r₂ hperm k l₁ hmem hlen
    obtain ⟨hl₁, hne₁⟩ := (mem_collectHashes_iff r₁ k l₁).mp hmem
    have hp : (keyPaths r₁ k).Perm (keyPaths r₂ k) := keyPaths_perm r₁ r₂ hperm k
    have hperm₁ : l₁.Perm (keyPaths r₂ k) := hl₁ ▸ hp
    refine ⟨keyPaths r₂ k, ?_, hperm₁, ?_⟩
    · refine (mem_collectHashes_iff r₂ k _).mpr ⟨rfl, ?_⟩
      intro hnil
      exact hne₁ (by rw [hl₁]; exact (hnil ▸ hp).eq_nil)
    · have := hperm₁.length_eq
      omega

/-- Witness for C5: a swap of the arrival order keeps the one group's
key and member multiset. -/
theorem c5_witness :
    ([("h", ['a']), ("h", ['b'])] : List (String × List Char)).Perm
        [("h", ['b']), ("h", ['a'])]
    ∧ ∃ l₂, ("h", l₂) ∈ collectHashes
          ([("h", ['b']), ("h", ['a'])] : List (String × List Char))
        ∧ ([['a'], ['b']] : List (List Char)).Perm l₂ ∧ 2 ≤ l₂.length :=
  ⟨by decide,
    c5_labels_consecutive_content_order_insensitive.2
      [("h", ['a']), ("h", ['b'])] [("h", ['b']), ("h", ['a'])] (by decide)
      "h" [['a'], ['b']] (by decide) (by decide)⟩

/-- C7 fails as stated on find_files.py (also cited by the claim): with
zero directory arguments its `main` prints the usage message, performs no
scan and writes no report — but then returns normally, so the process
exits with status 0, not a non-zero status. -/
theorem c7_counterexample :
    (FindFiles.main trivialWorld ["find_files.py"]).scanned = false
    ∧ (FindFiles.main trivialWorld ["find_files.py"]).reportWritten = false
    ∧ "Please provide at least one directory as an argument."
        ∈ (FindFiles.main trivialWorld ["find_files.py"]).messages
    ∧ (FindFiles.main trivialWorld ["find_files.py"]).exitCode = 0 := by
  refine ⟨rfl, rfl, ?_, rfl⟩
  simp [FindFiles.main, trivialWorld]

/-- C7 (amended): With zero directory-root arguments no scan is performed,
no report is written and the usage message is printed in all three
modules; the process exits non-zero only in find_duplicate_files.py —
through the uncaught `NameError` raised by the final logging statement,
which reads the never-bound `directories` variable — while find_files.py
and find_files_parallel.py exit with status 0. -/
theorem c7_no_roots_usage_behaviour (w : World) (argv : List String)
    (h : argv.length ≤ 1) :
    ((FindDuplicateFiles.main w argv).scanned = false
      ∧ (FindDuplicateFiles.main w argv).reportWritten = false
      ∧ "Please provide at least one directory as an argument."
          ∈ (FindDuplicateFiles.main w argv).messages
      ∧ (FindDuplicateFiles.main w argv).exitCode ≠ 0)
    ∧ ((FindFiles.main w argv).scanned = false
      ∧ (FindFiles.main w argv).reportWritten = false
      ∧ "Please provide at least one directory as an argument."
          ∈ (FindFiles.main w argv).messages
      ∧ (FindFiles.main w argv).exitCode = 0)
    ∧ ((FindFilesParallel.main w argv).scanned = false
      ∧ (FindFilesParallel.main w argv).reportWritten = false
      ∧ "Please provide at least one directory as an argument."
          ∈ (FindFilesParallel.main w argv).messages
      ∧ (FindFilesParallel.main w argv).exitCode = 0) := by
  have hn : ¬ 1 < argv.length := by omega
  refine ⟨⟨?_, ?_, ?_, ?_⟩, ⟨?_, ?_, ?_, ?_⟩, ⟨?_, ?_, ?_, ?_⟩⟩ <;>
    simp [FindDuplicateFiles.main, FindFiles.main, FindFilesParallel.main, hn,
      MainOutcome.exitCode]

/-- Witness for C7 at the concrete no-argument invocation. -/
theorem c7_witness :
    (["prog"] : List String).length ≤ 1
    ∧ (FindDuplicateFiles.main trivialWorld ["prog"]).exitCode ≠ 0
    ∧ (FindFiles.main trivialWorld ["prog"]).exitCode = 0 :=
  ⟨by decide,
    (c7_no_roots_usage_behaviour trivialWorld ["prog"] (by decide)).1.2.2.2,
    (c7_no_roots_usage_behaviour trivialWorld ["prog"] (by decide)).2.1.2.2.2⟩

/-- C8 fails as stated: only the owner lookup of `get_file_metadata` is
guarded; the timestamp lookups sit outside the `try`, so a failing
modification-time lookup raises, aborts the enrichment of the file and of
its whole group instead of degrading to a placeholder, and the export of
the report dies with it. -/
theorem c8_counterexample :
    get_file_metadata failingTimestampOS ['f'] = Except.error "stat failed"
    ∧ enrichGroup failingTimestampOS [['f'], ['g']] = Except.error "stat failed"
    ∧ exportReport failingTimestampOS [("h", ['f']), ("h", ['g'])]
        = Except.error "stat failed" := by
  exact ⟨rfl, rfl, rfl⟩

/-- C8 (amended): When the size and timestamp lookups succeed, an owner
lookup failure degrades to the placeholder `"Owner Info Not Available:
<reason>"` carrying the failure reason, the remaining metadata fields are
exactly the looked-up values, and a group all of whose members can be
enriched is enriched whole — no file is dropped; but a failing size or
timestamp lookup raises and aborts the enrichment (see the
counterexample). -/
theorem c8_owner_failure_degrades_to_placeholder
    (mos : MetaOS) (p : List Char) (sz : Nat) (mt ct : String)
    (hs : mos.getSize p = Except.ok sz)
    (hm : mos.getMTime p = Except.ok mt)
    (hc : mos.getCTime p = Except.ok ct) :
    (∀ e, mos.getOwner p = Except.error e →
        get_file_metadata mos p = Except.ok
          { length_bytes := sz, lastWriteTime := mt, creationTime := ct,
            fileOwner := "Owner Info Not Available: " ++ e })
    ∧ (∀ d u, mos.getOwner p = Except.ok (d, u) →
        get_file_metadata mos p = Except.ok
          { length_bytes := sz, lastWriteTime := mt, creationTime := ct,
            fileOwner := d ++ "\\" ++ u })
    ∧ ∀ (g : List (List Char)),
        (∀ f ∈ g, ∃ m, get_file_metadata mos f = Except.ok m) →
        ∃ l, enrichGroup mos g = Except.ok l ∧ l.map (fun x => x.1) = g := by
  refine ⟨?_, ?_, enrichGroup_ok mos⟩
  · intro e he
    simp [get_file_metadata, hs, hm, hc, he, bind, Except.bind, pure, Except.pure]
  · intro d u ho
    simp [get_file_metadata, hs, hm, hc, ho, bind, Except.bind, pure, Except.pure]

/-- Witness for C8: with the owner lookup failing and the other lookups
succeeding, the metadata record holds the placeholder owner. -/
theorem c8_witness :
    ownerFailOS.getSize ['f'] = Except.ok 7
    ∧ ownerFailOS.getMTime ['f'] = Except.ok "2024-01-01 00:00"
    ∧ ownerFailOS.getCTime ['f'] = Except.ok "2024-01-02 00:00"
    ∧ ownerFailOS.getOwner ['f'] = Except.error "SID lookup failed"
    ∧ get_file_metadata ownerFailOS ['f'] = Except.ok
        { length_bytes := 7, lastWriteTime := "2024-01-01 00:00",
          creationTime := "2024-01-02 00:00",
          fileOwner := "Owner Info Not Available: SID lookup failed" } :=
  ⟨rfl, rfl, rfl, rfl,
    (c8_owner_failure_degrades_to_placeholder ownerFailOS ['f'] 7
        "2024-01-01 00:00" "2024-01-02 00:00" rfl rfl rfl).1
      "SID lookup failed" rfl⟩
